import Mathlib

/-!
Shallow embedding of `bax/alg/algorithms.py`: the four sequential query
algorithms (`LinearScan`, `LinearScanRandGap`, `AverageOutputs`,
`OptRightScan`) and their shared run loop.

Modelling conventions:
* Python floats are modelled as rationals (`ℚ`); NumPy operations on
  floats become exact rational operations.
* Every grid point in the source is a one-element list `[x]`; a point is
  modelled by its scalar.
* Fallible operations (`list[-1]` on an empty list, `np.min`/`np.mean`
  of an empty sequence, out-of-range indexing) are modelled with
  `Option`, `none` standing for the runtime error.
* A `get_next_x` method returns `Option (Option point)`: the outer layer
  is error vs. normal return, the inner layer is the stop sentinel
  (Python `None`) vs. a proposed point.
* The unbounded `while` loop of `run_algorithm_on_f` is modelled with an
  explicit fuel parameter; `runLoop` returns `none` when the fuel runs
  out before the algorithm stops (or when a step errors), so a `some`
  result certifies termination within the given number of iterations.
* The purely diagnostic `name` parameter and the `print_str`/`__str__`
  methods are omitted: they do not affect algorithm semantics.
-/

/-- Execution path (`exe_path = Namespace(x=[], y=[])`): the ordered record
of queried inputs `x` and observed outputs `y`. -/
structure ExePath (α β : Type) where
  x : List α
  y : List β
deriving DecidableEq

/-- NumPy `np.min` on a list: `none` models the runtime error on an empty
sequence. -/
def npMin {α : Type} [LinearOrder α] : List α → Option α
  | [] => none
  | a :: l => some (l.foldl min a)

/-- NumPy `np.max` on a list: `none` models the runtime error on an empty
sequence. -/
def npMax {α : Type} [LinearOrder α] : List α → Option α
  | [] => none
  | a :: l => some (l.foldl max a)

/-- NumPy `np.mean` on a list of scalars: the arithmetic mean; `none`
models the undefined mean (NaN) of an empty sequence. -/
def npMean (l : List ℚ) : Option ℚ :=
  if l = [] then none else some (l.sum / (l.length : ℚ))

/-- NumPy `np.linspace a b num`: `num` evenly spaced points from `a` to
`b`, endpoints included (`[a]` for `num = 1`, `[]` for `num = 0`). -/
def linspace (a b : ℚ) (num : ℕ) : List ℚ :=
  if num = 1 then [a]
  else (List.range num).map (fun i : ℕ => a + (b - a) * (i : ℚ) / ((num : ℚ) - 1))

/-- The shared body of every `run_algorithm_on_f`: repeatedly ask `next`
for the next input, query `f`, and append the pair, until `next` returns
the stop sentinel.  `fuel` bounds the number of loop iterations; `none`
means the fuel ran out (the Python loop would still be running) or a step
raised an error. -/
def runLoop {α β : Type} (next : ExePath α β → Option (Option α)) (f : α → β) :
    ℕ → ExePath α β → Option (ExePath α β)
  | 0, path =>
    match next path with
    | some none => some path
    | _ => none
  | fuel + 1, path =>
    match next path with
    | none => none
    | some none => some path
    | some (some a) => runLoop next f fuel { x := path.x ++ [a], y := path.y ++ [f a] }

/-- One call of a `get_next_x` method modelled with the explicit result
state: the returned value of each of two successive calls on the same
path, together with the path after the calls (the source methods only
read `exe_path`, never write it). -/
def callTwice {α β γ : Type} (next : ExePath α β → γ) (path : ExePath α β) :
    γ × γ × ExePath α β :=
  (next path, next path, path)

/-- Parameters of `LinearScan` (`self.params`), the diagnostic `name`
omitted. -/
structure LinearScanParams (α : Type) where
  x_path : List α
deriving DecidableEq

/-- Configuration input of `LinearScan.set_params`: each field optional,
`none` modelling an absent attribute (the `getattr` default applies). -/
structure LinearScanConfig where
  x_path : Option (List ℚ)

/-- Default grid of `LinearScan.set_params`:
`[[x] for x in np.linspace(3.5, 20, 100)]`. -/
def LinearScan.default_x_path : List ℚ := linspace (7/2) 20 100

/-- `LinearScan.set_params`: fill the parameter record, absent fields
taking the documented defaults.  No validation is performed. -/
def LinearScan.set_params (c : LinearScanConfig) : LinearScanParams ℚ :=
  { x_path := c.x_path.getD LinearScan.default_x_path }

/-- `LinearScan.get_next_x`: the grid point at index `len(exe_path.x)`, or
the stop sentinel once the path length equals the grid length (outer
`none` models the `IndexError` of indexing past the grid). -/
def LinearScan.get_next_x {α β : Type} (p : LinearScanParams α) (path : ExePath α β) :
    Option (Option α) :=
  if path.x.length = p.x_path.length then some none
  else
    match p.x_path[path.x.length]? with
    | some a => some (some a)
    | none => none

/-- `LinearScan.get_output_from_exe_path`: the raw list of observed
outputs. -/
def LinearScan.get_output_from_exe_path {α β : Type} (path : ExePath α β) : List β :=
  path.y

/-- `LinearScan.run_algorithm_on_f`: run the query loop from the empty
path and pair the final path with the output reduction. -/
def LinearScan.run_algorithm_on_f {α β : Type} (p : LinearScanParams α) (f : α → β)
    (fuel : ℕ) : Option (ExePath α β × List β) :=
  (runLoop (LinearScan.get_next_x p) f fuel { x := [], y := [] }).map
    (fun e => (e, LinearScan.get_output_from_exe_path e))

/-- Parameters of `AverageOutputs` (`self.params`), the diagnostic `name`
omitted. -/
structure AverageOutputsParams (α : Type) where
  x_path : List α
deriving DecidableEq

/-- Configuration input of `AverageOutputs.set_params`. -/
structure AverageOutputsConfig where
  x_path : Option (List ℚ)

/-- Default point set of `AverageOutputs.set_params`:
`[[5.1], [5.3], [5.5], [20.1], [20.3], [20.5]]`. -/
def AverageOutputs.default_x_path : List ℚ :=
  [51/10, 53/10, 55/10, 201/10, 203/10, 205/10]

/-- `AverageOutputs.set_params`: fill the parameter record, absent fields
taking the documented defaults.  No validation is performed. -/
def AverageOutputs.set_params (c : AverageOutputsConfig) : AverageOutputsParams ℚ :=
  { x_path := c.x_path.getD AverageOutputs.default_x_path }

/-- `AverageOutputs.get_next_x`: identical index-based walk over the fixed
point list (the class repeats `LinearScan`'s body verbatim). -/
def AverageOutputs.get_next_x {α β : Type} (p : AverageOutputsParams α)
    (path : ExePath α β) : Option (Option α) :=
  if path.x.length = p.x_path.length then some none
  else
    match p.x_path[path.x.length]? with
    | some a => some (some a)
    | none => none

/-- `AverageOutputs.get_output_from_exe_path`: `np.mean(exe_path.y)`, a
single scalar. -/
def AverageOutputs.get_output_from_exe_path {α : Type} (path : ExePath α ℚ) : Option ℚ :=
  npMean path.y

/-- `AverageOutputs.run_algorithm_on_f`: run the query loop from the empty
path and pair the final path with the mean of the outputs. -/
def AverageOutputs.run_algorithm_on_f {α : Type} (p : AverageOutputsParams α)
    (f : α → ℚ) (fuel : ℕ) : Option (ExePath α ℚ × Option ℚ) :=
  (runLoop (AverageOutputs.get_next_x p) f fuel { x := [], y := [] }).map
    (fun e => (e, AverageOutputs.get_output_from_exe_path e))

/-- Parameters of `OptRightScan` (`self.params`), the diagnostic `name`
omitted; `init_x = [4.0]` is modelled by its scalar. -/
structure OptRightScanParams where
  init_x : ℚ
  x_grid_gap : ℚ
  conv_thresh : ℚ
  max_iter : ℤ
deriving DecidableEq

/-- Configuration input of `OptRightScan.set_params`. -/
structure OptRightScanConfig where
  init_x : Option ℚ
  x_grid_gap : Option ℚ
  conv_thresh : Option ℚ
  max_iter : Option ℤ

/-- `OptRightScan.set_params`: fill the parameter record, absent fields
taking the documented defaults `[4.0] / 0.1 / 0.2 / 100`.  No validation
is performed. -/
def OptRightScan.set_params (c : OptRightScanConfig) : OptRightScanParams :=
  { init_x := c.init_x.getD 4
    x_grid_gap := c.x_grid_gap.getD (1/10)
    conv_thresh := c.conv_thresh.getD (1/5)
    max_iter := c.max_iter.getD 100 }

/-- `OptRightScan.get_next_x`: propose `init_x` on an empty path and
`exe_path.x[-1][0] + x_grid_gap` otherwise; once at least two points are
recorded, overwrite with the stop sentinel when
`exe_path.y[-1] > np.min(exe_path.y[:-1]) + conv_thresh`; finally
overwrite with the stop sentinel when `len(exe_path.x) > max_iter`.
The outer `none` models the runtime errors (`x[-1]` on an empty list,
`np.min` of an empty slice), which in the source abort before the
`max_iter` check is reached. -/
def OptRightScan.get_next_x (p : OptRightScanParams) (path : ExePath ℚ ℚ) :
    Option (Option ℚ) :=
  match (if path.x.length = 0 then some (some p.init_x)
         else
           match path.x.getLast? with
           | some xl => some (some (xl + p.x_grid_gap))
           | none => none) with
  | none => none
  | some next_x =>
    match (if 2 ≤ path.x.length then
             match npMin path.y.dropLast, path.y.getLast? with
             | some m, some yl =>
               some (if m + p.conv_thresh < yl then none else next_x)
             | _, _ => none
           else some next_x) with
    | none => none
    | some next_x2 =>
      some (if p.max_iter < (path.x.length : ℤ) then none else next_x2)

/-- `OptRightScan.get_output_from_exe_path`: `exe_path.x[-1]`, the last
queried input point (`none` models the `IndexError` on an empty path). -/
def OptRightScan.get_output_from_exe_path (path : ExePath ℚ ℚ) : Option ℚ :=
  path.x.getLast?

/-- `OptRightScan.run_algorithm_on_f`: run the query loop from the empty
path and pair the final path with the last queried input point. -/
def OptRightScan.run_algorithm_on_f (p : OptRightScanParams) (f : ℚ → ℚ)
    (fuel : ℕ) : Option (ExePath ℚ ℚ × Option ℚ) :=
  (runLoop (OptRightScan.get_next_x p) f fuel { x := [], y := [] }).map
    (fun e => (e, OptRightScan.get_output_from_exe_path e))

/-- Parameters of `LinearScanRandGap`: the working grid `x_path` plus the
construction-time snapshot `x_path_orig`. -/
structure LinearScanRandGapParams where
  x_path : List ℚ
  x_path_orig : List ℚ
deriving DecidableEq

/-- `LinearScanRandGap.__init__`: run the inherited constructor and
snapshot `x_path_orig = copy.deepcopy(self.params.x_path)`. -/
def LinearScanRandGap.init (p : LinearScanParams ℚ) : LinearScanRandGapParams :=
  { x_path := p.x_path, x_path_orig := p.x_path }

/-- `rand_factor = 0.2` of `LinearScanRandGap.run_algorithm_on_f`. -/
def LinearScanRandGap.rand_factor : ℚ := 1/5

/-- `min_gap = np.ceil((1 - rand_factor) * n_grid)`: the inclusive lower
bound of the resampled grid size. -/
def LinearScanRandGap.min_gap (n : ℕ) : ℤ :=
  Int.ceil ((1 - LinearScanRandGap.rand_factor) * (n : ℚ))

/-- `max_gap = np.ceil((1 + rand_factor) * n_grid)`: the exclusive upper
bound of the resampled grid size (`np.random.randint(min_gap, max_gap)`
draws from `[min_gap, max_gap)`). -/
def LinearScanRandGap.max_gap (n : ℕ) : ℤ :=
  Int.ceil ((1 + LinearScanRandGap.rand_factor) * (n : ℚ))

/-- Grid regeneration of `LinearScanRandGap.run_algorithm_on_f` for a
drawn point count `r`:
`[[x] for x in np.linspace(np.min(x_path), np.max(x_path), r)]`.
`none` models the runtime error of `np.min`/`np.max` on an empty grid. -/
def LinearScanRandGap.resample (orig : List ℚ) (r : ℕ) : Option (List ℚ) :=
  match npMin orig, npMax orig with
  | some lo, some hi => some (linspace lo hi r)
  | _, _ => none

/-- `LinearScanRandGap.get_next_x`: inherited unchanged from `LinearScan`,
reading the working grid `self.params.x_path`. -/
def LinearScanRandGap.get_next_x {β : Type} (p : LinearScanRandGapParams)
    (path : ExePath ℚ β) : Option (Option ℚ) :=
  LinearScan.get_next_x { x_path := p.x_path } path

/-- `LinearScanRandGap.run_algorithm_on_f`: regenerate the working grid
from the snapshot `x_path_orig` (the randomly drawn grid size `r` is
passed in explicitly, modelling `np.random.randint(min_gap, max_gap)`),
store it in `self.params.x_path`, and run the inherited scan on it.
Returns the updated parameter record together with the inherited run's
result. -/
def LinearScanRandGap.run_algorithm_on_f (p : LinearScanRandGapParams) (r : ℕ)
    (f : ℚ → ℚ) (fuel : ℕ) :
    Option (LinearScanRandGapParams × Option (ExePath ℚ ℚ × List ℚ)) :=
  match LinearScanRandGap.resample p.x_path_orig r with
  | none => none
  | some new_x_path =>
    some ({ p with x_path := new_x_path },
          LinearScan.run_algorithm_on_f { x_path := new_x_path } f fuel)

/-- A sequence of calls of `LinearScanRandGap.run_algorithm_on_f` on the
same instance, threading the (possibly mutated) parameter record; each
list entry supplies the drawn grid size, the queried function and the
fuel of one run. -/
def LinearScanRandGap.runMany (p : LinearScanRandGapParams) :
    List (ℕ × (ℚ → ℚ) × ℕ) → Option LinearScanRandGapParams
  | [] => some p
  | (r, f, fuel) :: rest =>
    match LinearScanRandGap.run_algorithm_on_f p r f fuel with
    | none => none
    | some (p', _) => LinearScanRandGap.runMany p' rest

/-! ### Helper lemmas: folds, `npMin`/`npMax`, last elements -/

theorem foldl_min_le_self {α : Type} [LinearOrder α] (l : List α) (a : α) :
    l.foldl min a ≤ a := by
  induction l generalizing a with
  | nil => simp
  | cons b t ih => exact le_trans (ih (min a b)) (min_le_left a b)

theorem foldl_min_eq_of_le {α : Type} [LinearOrder α] (l : List α) (a : α)
    (h : ∀ z ∈ l, a ≤ z) : l.foldl min a = a := by
  induction l generalizing a with
  | nil => rfl
  | cons b t ih =>
    have hb : min a b = a := min_eq_left (h b (by simp))
    rw [List.foldl_cons, hb]
    exact ih a (fun z hz => h z (by simp [hz]))

theorem le_foldl_max_self {α : Type} [LinearOrder α] (l : List α) (a : α) :
    a ≤ l.foldl max a := by
  induction l generalizing a with
  | nil => simp
  | cons b t ih => exact le_trans (le_max_left a b) (ih (max a b))

theorem le_foldl_max_of_mem {α : Type} [LinearOrder α] {l : List α} {z : α} (a : α)
    (h : z ∈ l) : z ≤ l.foldl max a := by
  induction l generalizing a with
  | nil => cases h
  | cons b t ih =>
    rcases List.mem_cons.mp h with rfl | h'
    · exact le_trans (le_max_right a z) (le_foldl_max_self t (max a z))
    · exact ih (max a b) h'

theorem foldl_max_mem {α : Type} [LinearOrder α] (l : List α) (a : α) :
    l.foldl max a ∈ a :: l := by
  induction l generalizing a with
  | nil => simp
  | cons b t ih =>
    rw [List.foldl_cons]
    rcases List.mem_cons.mp (ih (max a b)) with he | ht
    · rcases max_choice a b with h1 | h1 <;> rw [he, h1] <;> simp
    · simp [ht]

theorem foldl_max_eq_of_le {α : Type} [LinearOrder α] (l : List α) (a b : α)
    (hab : a ≤ b) (hmem : b ∈ l) (h : ∀ z ∈ l, z ≤ b) : l.foldl max a = b := by
  refine le_antisymm ?_ (le_foldl_max_of_mem a hmem)
  rcases List.mem_cons.mp (foldl_max_mem l a) with he | ht
  · rw [he]; exact hab
  · rw [show l.foldl max a ≤ b ↔ _ from Iff.rfl]; exact h _ ht

theorem npMin_some_of_ne_nil {α : Type} [LinearOrder α] {l : List α} (h : l ≠ []) :
    ∃ m, npMin l = some m := by
  cases l with
  | nil => exact absurd rfl h
  | cons a t => exact ⟨t.foldl min a, rfl⟩

theorem getLast_some_of_ne_nil {α : Type} {l : List α} (h : l ≠ []) :
    ∃ a, l.getLast? = some a := by
  induction l with
  | nil => exact absurd rfl h
  | cons a t ih =>
    cases t with
    | nil => exact ⟨a, rfl⟩
    | cons b t' =>
      obtain ⟨c, hc⟩ := ih (by simp)
      exact ⟨c, by rw [List.getLast?_cons_cons]; exact hc⟩

/-! ### Helper lemmas: `linspace` -/

theorem linspace_length (a b : ℚ) (num : ℕ) : (linspace a b num).length = num := by
  rw [linspace]
  split
  · simp [*]
  · simp

theorem npMin_linspace (a b : ℚ) (hab : a ≤ b) (r : ℕ) (hr : 2 ≤ r) :
    npMin (linspace a b r) = some a := by
  obtain ⟨k, rfl⟩ : ∃ k, r = k + 2 := ⟨r - 2, by omega⟩
  have hcast : ((k + 2 : ℕ) : ℚ) - 1 = (k : ℚ) + 1 := by push_cast; ring
  rw [linspace, if_neg (by omega)]
  rw [show k + 2 = (k + 1) + 1 from rfl, List.range_succ_eq_map]
  rw [List.map_cons]
  have h0 : a + (b - a) * ((0 : ℕ) : ℚ) / (((k + 1 + 1 : ℕ) : ℚ) - 1) = a := by
    push_cast; ring
  rw [h0, npMin]
  rw [foldl_min_eq_of_le]
  intro z hz
  rw [List.map_map] at hz
  obtain ⟨i, hi, rfl⟩ := List.mem_map.mp hz
  have hknn : (0 : ℚ) < (k : ℚ) + 1 := by positivity
  have : (0 : ℚ) ≤ (b - a) * ((Nat.succ i : ℕ) : ℚ) / (((k + 1 + 1 : ℕ) : ℚ) - 1) := by
    rw [show (((k + 1 + 1 : ℕ) : ℚ) - 1) = (k : ℚ) + 1 by push_cast; ring]
    have h1 : (0 : ℚ) ≤ b - a := by linarith
    have h2 : (0 : ℚ) ≤ ((Nat.succ i : ℕ) : ℚ) := by positivity
    positivity
  simp only [Function.comp]
  linarith

theorem npMax_linspace (a b : ℚ) (hab : a ≤ b) (r : ℕ) (hr : 2 ≤ r) :
    npMax (linspace a b r) = some b := by
  obtain ⟨k, rfl⟩ : ∃ k, r = k + 2 := ⟨r - 2, by omega⟩
  have hcast : ((k + 2 : ℕ) : ℚ) - 1 = (k : ℚ) + 1 := by push_cast; ring
  have hkpos : (0 : ℚ) < (k : ℚ) + 1 := by positivity
  have hba : (0 : ℚ) ≤ b - a := by linarith
  have hval : ∀ i : ℕ, i ≤ k + 1 →
      a + (b - a) * (i : ℚ) / (((k + 2 : ℕ) : ℚ) - 1) ≤ b := by
    intro i hi
    rw [hcast]
    have hile : (i : ℚ) ≤ (k : ℚ) + 1 := by
      have := (Nat.cast_le (α := ℚ)).mpr hi
      push_cast at this
      linarith
    have h1 : (b - a) * (i : ℚ) ≤ (b - a) * ((k : ℚ) + 1) :=
      mul_le_mul_of_nonneg_left hile hba
    have h2 : (b - a) * (i : ℚ) / ((k : ℚ) + 1) ≤ (b - a) := by
      rw [div_le_iff₀ hkpos]
      linarith
    linarith
  rw [linspace, if_neg (by omega)]
  rw [show k + 2 = (k + 1) + 1 from rfl, List.range_succ_eq_map]
  rw [List.map_cons]
  have h0 : a + (b - a) * ((0 : ℕ) : ℚ) / (((k + 1 + 1 : ℕ) : ℚ) - 1) = a := by
    push_cast; ring
  rw [h0, npMax]
  rw [foldl_max_eq_of_le _ _ b hab]
  · rw [List.map_map]
    refine List.mem_map.mpr ⟨k, ?_, ?_⟩
    · simp
    · simp only [Function.comp]
      rw [hcast]
      push_cast
      rw [mul_div_assoc, div_self (by positivity), mul_one]
      ring
  · intro z hz
    rw [List.map_map] at hz
    obtain ⟨i, hi, rfl⟩ := List.mem_map.mp hz
    simp only [Function.comp]
    refine hval (i + 1) ?_
    simp only [List.mem_range] at hi
    omega

/-! ### Helper lemmas: the shared run loop -/

theorem runLoop_append {α β : Type} (next : ExePath α β → Option (Option α)) (f : α → β) :
    ∀ (fuel : ℕ) (p r : ExePath α β), runLoop next f fuel p = some r →
      ∃ ex ey, r.x = p.x ++ ex ∧ r.y = p.y ++ ey ∧ ex.length = ey.length := by
  intro fuel
  induction fuel with
  | zero =>
    intro p r h
    rw [runLoop] at h
    cases hn : next p with
    | none => rw [hn] at h; simp at h
    | some o =>
      cases o with
      | none =>
        rw [hn] at h
        simp only [Option.some.injEq] at h
        exact ⟨[], [], by simp [h], by simp [h], rfl⟩
      | some a => rw [hn] at h; simp at h
  | succ n ih =>
    intro p r h
    rw [runLoop] at h
    cases hn : next p with
    | none => rw [hn] at h; simp at h
    | some o =>
      cases o with
      | none =>
        rw [hn] at h
        simp only [Option.some.injEq] at h
        exact ⟨[], [], by simp [h], by simp [h], rfl⟩
      | some a =>
        rw [hn] at h
        obtain ⟨ex, ey, hx, hy, hlen⟩ := ih _ _ h
        refine ⟨a :: ex, f a :: ey, ?_, ?_, by simp [hlen]⟩
        · simpa using hx
        · simpa using hy

theorem runLoop_some_of_stop {α β : Type} (next : ExePath α β → Option (Option α))
    (f : α → β) (N : ℕ)
    (herr : ∀ q : ExePath α β, q.x.length = q.y.length → next q ≠ none)
    (hstop : ∀ q : ExePath α β, q.x.length = q.y.length → N ≤ q.x.length →
      next q = some none) :
    ∀ (fuel : ℕ) (p : ExePath α β), p.x.length = p.y.length → p.x.length ≤ N →
      N ≤ p.x.length + fuel →
      ∃ r, runLoop next f fuel p = some r ∧ r.x.length = r.y.length ∧ r.x.length ≤ N := by
  intro fuel
  induction fuel with
  | zero =>
    intro p hwf hle hge
    have hN : N ≤ p.x.length := by omega
    have hn := hstop p hwf hN
    refine ⟨p, ?_, hwf, hle⟩
    rw [runLoop, hn]
  | succ n ih =>
    intro p hwf hle hge
    cases hn : next p with
    | none => exact absurd hn (herr p hwf)
    | some o =>
      cases o with
      | none =>
        refine ⟨p, ?_, hwf, hle⟩
        rw [runLoop, hn]
      | some a =>
        have hlt : p.x.length < N := by
          by_contra hcon
          have := hstop p hwf (by omega)
          rw [hn] at this
          simp at this
        have hwf' : (p.x ++ [a]).length = (p.y ++ [f a]).length := by
          simp [hwf]
        obtain ⟨r, hr, hrwf, hrle⟩ :=
          ih { x := p.x ++ [a], y := p.y ++ [f a] } hwf' (by simp; omega) (by simp; omega)
        refine ⟨r, ?_, hrwf, hrle⟩
        rw [runLoop, hn]
        exact hr

theorem runLoop_grid {α β : Type} (next : ExePath α β → Option (Option α)) (f : α → β)
    (grid : List α)
    (hnext : ∀ path : ExePath α β, next path =
      if path.x.length = grid.length then some none
      else
        match grid[path.x.length]? with
        | some a => some (some a)
        | none => none) :
    ∀ (g₂ g₁ : List α), grid = g₁ ++ g₂ →
      runLoop next f g₂.length { x := g₁, y := g₁.map f } =
        some { x := grid, y := grid.map f } := by
  intro g₂
  induction g₂ with
  | nil =>
    intro g₁ hg
    have hlen : g₁.length = grid.length := by rw [hg]; simp
    have hn : next { x := g₁, y := g₁.map f } = some none := by
      rw [hnext]; simp [hlen]
    rw [List.length_nil, runLoop, hn, hg]
    simp
  | cons a t ih =>
    intro g₁ hg
    have hne : ¬ g₁.length = grid.length := by
      rw [hg, List.length_append, List.length_cons]; omega
    have hget : grid[g₁.length]? = some a := by
      rw [hg, List.getElem?_append_right (le_refl _)]
      simp
    have hn : next { x := g₁, y := g₁.map f } = some (some a) := by
      rw [hnext]
      simp only [if_neg hne, hget]
    rw [List.length_cons, runLoop, hn]
    have hg' : grid = (g₁ ++ [a]) ++ t := by rw [hg]; simp
    have h := ih (g₁ ++ [a]) hg'
    rw [List.map_append] at h
    exact h

/-! ### Helper lemmas: `OptRightScan.get_next_x` case analysis -/

theorem OptRightScan.get_next_x_len0 (p : OptRightScanParams) (path : ExePath ℚ ℚ)
    (h : path.x.length = 0) :
    OptRightScan.get_next_x p path =
      some (if p.max_iter < 0 then none else some p.init_x) := by
  simp [OptRightScan.get_next_x, h]

theorem OptRightScan.get_next_x_len1 (p : OptRightScanParams) (path : ExePath ℚ ℚ)
    (h : path.x.length = 1) {xl : ℚ} (hxl : path.x.getLast? = some xl) :
    OptRightScan.get_next_x p path =
      some (if p.max_iter < 1 then none else some (xl + p.x_grid_gap)) := by
  simp [OptRightScan.get_next_x, h, hxl]

theorem OptRightScan.get_next_x_len2 (p : OptRightScanParams) (path : ExePath ℚ ℚ)
    (h2 : 2 ≤ path.x.length) {xl m yl : ℚ} (hxl : path.x.getLast? = some xl)
    (hm : npMin path.y.dropLast = some m) (hyl : path.y.getLast? = some yl) :
    OptRightScan.get_next_x p path =
      some (if p.max_iter < (path.x.length : ℤ) then none
            else if m + p.conv_thresh < yl then none
            else some (xl + p.x_grid_gap)) := by
  have h0 : ¬ path.x.length = 0 := by omega
  simp [OptRightScan.get_next_x, h0, h2, hxl, hm, hyl]

theorem OptRightScan.get_next_x_ne_none (p : OptRightScanParams) (path : ExePath ℚ ℚ)
    (hwf : path.x.length = path.y.length) :
    OptRightScan.get_next_x p path ≠ none := by
  rcases Nat.lt_or_ge path.x.length 2 with hlt | hge
  · interval_cases h : path.x.length
    · rw [OptRightScan.get_next_x_len0 p path h]
      split <;> simp
    · obtain ⟨xl, hxl⟩ := getLast_some_of_ne_nil (l := path.x)
        (List.length_pos.mp (by omega))
      rw [OptRightScan.get_next_x_len1 p path h hxl]
      split <;> simp
  · obtain ⟨xl, hxl⟩ := getLast_some_of_ne_nil (l := path.x)
      (List.length_pos.mp (by omega))
    obtain ⟨yl, hyl⟩ := getLast_some_of_ne_nil (l := path.y)
      (List.length_pos.mp (by omega))
    obtain ⟨m, hm⟩ := npMin_some_of_ne_nil (l := path.y.dropLast)
      (List.length_pos.mp (by rw [List.length_dropLast]; omega))
    rw [OptRightScan.get_next_x_len2 p path hge hxl hm hyl]
    split
    · simp
    · split <;> simp

theorem OptRightScan.get_next_x_stop_of_cap (p : OptRightScanParams)
    (path : ExePath ℚ ℚ) (hwf : path.x.length = path.y.length)
    (hcap : p.max_iter < (path.x.length : ℤ)) :
    OptRightScan.get_next_x p path = some none := by
  rcases Nat.lt_or_ge path.x.length 2 with hlt | hge
  · interval_cases h : path.x.length
    · rw [OptRightScan.get_next_x_len0 p path h, if_pos (by exact_mod_cast hcap)]
    · obtain ⟨xl, hxl⟩ := getLast_some_of_ne_nil (l := path.x)
        (List.length_pos.mp (by omega))
      rw [OptRightScan.get_next_x_len1 p path h hxl, if_pos (by exact_mod_cast hcap)]
  · obtain ⟨xl, hxl⟩ := getLast_some_of_ne_nil (l := path.x)
      (List.length_pos.mp (by omega))
    obtain ⟨yl, hyl⟩ := getLast_some_of_ne_nil (l := path.y)
      (List.length_pos.mp (by omega))
    obtain ⟨m, hm⟩ := npMin_some_of_ne_nil (l := path.y.dropLast)
      (List.length_pos.mp (by rw [List.length_dropLast]; omega))
    rw [OptRightScan.get_next_x_len2 p path hge hxl hm hyl, if_pos hcap]

/-! ### Helper lemma: `runMany` preserves the snapshot grid -/

theorem runMany_orig (runs : List (ℕ × (ℚ → ℚ) × ℕ)) :
    ∀ (p p' : LinearScanRandGapParams), LinearScanRandGap.runMany p runs = some p' →
      p'.x_path_orig = p.x_path_orig := by
  induction runs with
  | nil =>
    intro p p' h
    rw [LinearScanRandGap.runMany] at h
    simp only [Option.some.injEq] at h
    rw [← h]
  | cons rff rest ih =>
    intro p p' h
    obtain ⟨r, f, fuel⟩ := rff
    rw [LinearScanRandGap.runMany] at h
    cases hrun : LinearScanRandGap.run_algorithm_on_f p r f fuel with
    | none => rw [hrun] at h; simp at h
    | some q =>
      obtain ⟨q1, q2⟩ := q
      rw [hrun] at h
      have h1 := ih q1 p' h
      rw [LinearScanRandGap.run_algorithm_on_f] at hrun
      cases hres : LinearScanRandGap.resample p.x_path_orig r with
      | none => rw [hres] at hrun; simp at hrun
      | some new =>
        rw [hres] at hrun
        simp only [Option.some.injEq, Prod.mk.injEq] at hrun
        rw [h1, ← hrun.1]

/-! ### Claims -/

/-- C1: for every configured grid and every total function `f`,
`LinearScan.run_algorithm_on_f f` terminates after exactly `len(grid)`
steps (the fuel `grid.length` suffices), querying `f` on exactly the grid
points in grid order (`path.x = grid`, `path.y = [f x for x in grid]`),
and returns the observed outputs in query order. -/
theorem LinearScan_run_spec : ∀ (α β : Type) (grid : List α) (f : α → β),
    LinearScan.run_algorithm_on_f { x_path := grid } f grid.length =
      some ({ x := grid, y := grid.map f }, grid.map f) := by
  intro α β grid f
  have h := runLoop_grid (LinearScan.get_next_x { x_path := grid }) f grid
    (fun path => rfl) grid [] (by simp)
  rw [LinearScan.run_algorithm_on_f]
  simp only [List.map_nil] at h
  rw [h]
  rfl

/-- C4: for every non-empty configured point set and every total `f`,
`AverageOutputs.run_algorithm_on_f f` queries exactly the configured
points in order and returns the single scalar
`mean([f(x) for x in points])`. -/
theorem AverageOutputs_run_spec : ∀ (α : Type) (points : List α) (f : α → ℚ),
    points ≠ [] →
    AverageOutputs.run_algorithm_on_f { x_path := points } f points.length =
      some ({ x := points, y := points.map f },
            some ((points.map f).sum / ((points.map f).length : ℚ))) := by
  intro α points f hne
  have h := runLoop_grid (AverageOutputs.get_next_x { x_path := points }) f points
    (fun path => rfl) points [] (by simp)
  rw [AverageOutputs.run_algorithm_on_f]
  simp only [List.map_nil] at h
  rw [h]
  simp [AverageOutputs.get_output_from_exe_path, npMean, hne]

/-- Witness for C4 at the concrete point set `[1, 3]` and `f = id`:
the returned output is the scalar mean `2`. -/
theorem AverageOutputs_run_spec_witness :
    AverageOutputs.run_algorithm_on_f (α := ℚ) { x_path := [1, 3] } id 2 =
      some ({ x := [1, 3], y := [1, 3] }, some 2) := by
  have h := AverageOutputs_run_spec ℚ [1, 3] id (by simp)
  norm_num at h
  exact h

/-- C8: for every variant, `get_next_x` is a pure function of the path
and the per-run parameters: two successive calls on the same path return
the same value and leave the path unchanged. -/
theorem get_next_x_pure : ∀ (α β : Type) (pls : LinearScanParams α)
    (pao : AverageOutputsParams α) (por : OptRightScanParams)
    (prg : LinearScanRandGapParams) (path : ExePath α β) (pathq : ExePath ℚ ℚ),
    ((callTwice (LinearScan.get_next_x pls) path).1 =
        (callTwice (LinearScan.get_next_x pls) path).2.1 ∧
      (callTwice (LinearScan.get_next_x pls) path).2.2 = path) ∧
    ((callTwice (AverageOutputs.get_next_x pao) path).1 =
        (callTwice (AverageOutputs.get_next_x pao) path).2.1 ∧
      (callTwice (AverageOutputs.get_next_x pao) path).2.2 = path) ∧
    ((callTwice (OptRightScan.get_next_x por) pathq).1 =
        (callTwice (OptRightScan.get_next_x por) pathq).2.1 ∧
      (callTwice (OptRightScan.get_next_x por) pathq).2.2 = pathq) ∧
    ((callTwice (LinearScanRandGap.get_next_x prg) pathq).1 =
        (callTwice (LinearScanRandGap.get_next_x prg) pathq).2.1 ∧
      (callTwice (LinearScanRandGap.get_next_x prg) pathq).2.2 = pathq) := by
  intro α β pls pao por prg path pathq
  exact ⟨⟨rfl, rfl⟩, ⟨rfl, rfl⟩, ⟨rfl, rfl⟩, ⟨rfl, rfl⟩⟩

/-- C9: the shared run loop starts from a path and only ever appends:
whenever `runLoop` returns a final path, that path extends the starting
path by equal-length blocks of inputs and outputs, so a run starting from
the empty path (as every `run_algorithm_on_f` does) keeps
`len(outputs) = len(inputs)` after each completed step and never removes
or reorders entries. -/
theorem exe_path_append_only : ∀ (α β : Type) (next : ExePath α β → Option (Option α))
    (f : α → β) (fuel : ℕ) (p r : ExePath α β),
    p.x.length = p.y.length → runLoop next f fuel p = some r →
    r.x.length = r.y.length ∧
    ∃ ex ey, r.x = p.x ++ ex ∧ r.y = p.y ++ ey ∧ ex.length = ey.length := by
  intro α β next f fuel p r hwf h
  obtain ⟨ex, ey, hx, hy, hlen⟩ := runLoop_append next f fuel p r h
  refine ⟨?_, ex, ey, hx, hy, hlen⟩
  rw [hx, hy]
  simp [hwf, hlen]

/-- Witness for C9: a one-step `LinearScan` run loop from the empty path,
producing the path `([1], [1])`. -/
theorem exe_path_append_only_witness :
    ({ x := [1], y := [1] } : ExePath ℚ ℚ).x.length =
      ({ x := [1], y := [1] } : ExePath ℚ ℚ).y.length ∧
    ∃ ex ey,
      ({ x := [1], y := [1] } : ExePath ℚ ℚ).x =
        ({ x := [], y := [] } : ExePath ℚ ℚ).x ++ ex ∧
      ({ x := [1], y := [1] } : ExePath ℚ ℚ).y =
        ({ x := [], y := [] } : ExePath ℚ ℚ).y ++ ey ∧
      ex.length = ey.length :=
  exe_path_append_only ℚ ℚ (LinearScan.get_next_x { x_path := [1] }) id 1
    { x := [], y := [] } { x := [1], y := [1] } rfl
    (by norm_num [runLoop, LinearScan.get_next_x])

/-- C2: `OptRightScan` terminates.  (i) `get_next_x` returns the stop
sentinel whenever `len(path) > max_iter`, regardless of the convergence
state; (ii) for `max_iter ≥ 0` the run completes within
`max_iter.toNat + 1` loop iterations and the final path has length at
most `max_iter + 1`; (iii) concretely, for the strictly decreasing
`f x = -x` and `max_iter = 5` the run stops with `len(path) ∈ {6, 7}`
(in fact 6) rather than running unbounded. -/
theorem OptRightScan_terminates :
    (∀ (p : OptRightScanParams) (path : ExePath ℚ ℚ),
        path.x.length = path.y.length → p.max_iter < (path.x.length : ℤ) →
        OptRightScan.get_next_x p path = some none) ∧
    (∀ (p : OptRightScanParams) (f : ℚ → ℚ), 0 ≤ p.max_iter →
        ∃ e out, OptRightScan.run_algorithm_on_f p f (p.max_iter.toNat + 1) =
            some (e, out) ∧ e.x.length ≤ p.max_iter.toNat + 1) ∧
    (∃ e out, OptRightScan.run_algorithm_on_f
        { init_x := 4, x_grid_gap := 1/10, conv_thresh := 1/5, max_iter := 5 }
        (fun x => -x) 6 = some (e, out) ∧ (e.x.length = 6 ∨ e.x.length = 7)) := by
  refine ⟨?_, ?_, ?_⟩
  · exact fun p path hwf hcap => OptRightScan.get_next_x_stop_of_cap p path hwf hcap
  · intro p f hm
    obtain ⟨r, hr, hrwf, hrle⟩ := runLoop_some_of_stop (OptRightScan.get_next_x p) f
      (p.max_iter.toNat + 1)
      (fun q hq => OptRightScan.get_next_x_ne_none p q hq)
      (fun q hq hN => OptRightScan.get_next_x_stop_of_cap p q hq (by omega))
      (p.max_iter.toNat + 1) { x := [], y := [] } rfl (by simp) (by simp)
    refine ⟨r, OptRightScan.get_output_from_exe_path r, ?_, hrle⟩
    rw [OptRightScan.run_algorithm_on_f, hr]
    rfl
  · refine ⟨{ x := [4, 41/10, 21/5, 43/10, 22/5, 9/2],
              y := [-4, -41/10, -21/5, -43/10, -22/5, -9/2] }, some (9/2), ?_, Or.inl rfl⟩
    norm_num [OptRightScan.run_algorithm_on_f, OptRightScan.get_output_from_exe_path,
      runLoop, OptRightScan.get_next_x, npMin]

/-- Witness for C2 at `max_iter = 1`: the cap fires on a length-2 path,
and the run with fuel `max_iter + 1 = 2` completes with at most 2 steps. -/
theorem OptRightScan_terminates_witness :
    OptRightScan.get_next_x
        { init_x := 4, x_grid_gap := 1/10, conv_thresh := 1/5, max_iter := 1 }
        { x := [1, 2], y := [1, 2] } = some none ∧
    ∃ e out, OptRightScan.run_algorithm_on_f
        { init_x := 4, x_grid_gap := 1/10, conv_thresh := 1/5, max_iter := 1 }
        id 2 = some (e, out) ∧ e.x.length ≤ 2 :=
  ⟨OptRightScan_terminates.1 _ _ rfl (by norm_num),
   OptRightScan_terminates.2.1 _ id (by norm_num)⟩

/-- C7: for `max_iter ≥ 0` the final `OptRightScan` path is non-empty, so
`exe_path.x[-1]` is well defined and the returned output is exactly the
last queried input point; with a negative `max_iter` the path is empty
and the output extraction has no value. -/
theorem OptRightScan_output_last :
    ∀ (p : OptRightScanParams) (f : ℚ → ℚ),
      (0 ≤ p.max_iter →
        ∃ e xl, OptRightScan.run_algorithm_on_f p f (p.max_iter.toNat + 1) =
            some (e, some xl) ∧ e.x ≠ [] ∧ e.x.getLast? = some xl) ∧
      (p.max_iter < 0 →
        ∀ fuel, OptRightScan.run_algorithm_on_f p f fuel =
          some ({ x := [], y := [] }, none)) := by
  intro p f
  constructor
  · intro hm
    have hn0 : OptRightScan.get_next_x p { x := [], y := [] } = some (some p.init_x) := by
      rw [OptRightScan.get_next_x_len0 p { x := [], y := [] } rfl, if_neg (by omega)]
    obtain ⟨r, hr, hrwf, hrle⟩ := runLoop_some_of_stop (OptRightScan.get_next_x p) f
      (p.max_iter.toNat + 1)
      (fun q hq => OptRightScan.get_next_x_ne_none p q hq)
      (fun q hq hN => OptRightScan.get_next_x_stop_of_cap p q hq (by omega))
      p.max_iter.toNat { x := [p.init_x], y := [f p.init_x] } (by simp)
      (by simp only [List.length_cons, List.length_nil]; omega)
      (by simp only [List.length_cons, List.length_nil]; omega)
    have hloop : runLoop (OptRightScan.get_next_x p) f (p.max_iter.toNat + 1)
        { x := [], y := [] } = some r := by
      rw [runLoop, hn0]
      exact hr
    obtain ⟨ex, ey, hx, hy, hlen⟩ := runLoop_append _ f _ _ _ hr
    have hne : r.x ≠ [] := by rw [hx]; simp
    obtain ⟨xl, hxl⟩ := getLast_some_of_ne_nil hne
    refine ⟨r, xl, ?_, hne, hxl⟩
    rw [OptRightScan.run_algorithm_on_f, hloop]
    simp [OptRightScan.get_output_from_exe_path, hxl]
  · intro hm fuel
    have hn0 : OptRightScan.get_next_x p { x := [], y := [] } = some none := by
      rw [OptRightScan.get_next_x_len0 p { x := [], y := [] } rfl, if_pos hm]
    cases fuel with
    | zero => rw [OptRightScan.run_algorithm_on_f, runLoop, hn0]; rfl
    | succ n => rw [OptRightScan.run_algorithm_on_f, runLoop, hn0]; rfl

/-- Witness for C7: with `max_iter = 0` the run returns the last queried
point; with `max_iter = -1` the path stays empty and the output is
`none`. -/
theorem OptRightScan_output_last_witness :
    (∃ e xl, OptRightScan.run_algorithm_on_f
        { init_x := 4, x_grid_gap := 1/10, conv_thresh := 1/5, max_iter := 0 }
        id 1 = some (e, some xl) ∧ e.x ≠ [] ∧ e.x.getLast? = some xl) ∧
    OptRightScan.run_algorithm_on_f
        { init_x := 4, x_grid_gap := 1/10, conv_thresh := 1/5, max_iter := -1 }
        id 3 = some ({ x := [], y := [] }, none) :=
  ⟨(OptRightScan_output_last _ id).1 (by norm_num),
   (OptRightScan_output_last _ id).2 (by norm_num) 3⟩

/-- C3 (amended): for a well-formed path with at least two recorded
pairs, `OptRightScan.get_next_x` returns the stop sentinel iff the most
recent output exceeds the minimum of all earlier outputs plus the
convergence threshold, or the hard iteration cap is exceeded; on an empty
path it proposes the configured initial point provided the cap is not
already exceeded (`max_iter ≥ 0`); and on a non-empty path, when it does
not stop, it proposes `previous_x + x_grid_gap`. -/
theorem OptRightScan_get_next_x_spec :
    ∀ (p : OptRightScanParams) (path : ExePath ℚ ℚ),
      path.x.length = path.y.length →
      (∀ m yl, 2 ≤ path.x.length → npMin path.y.dropLast = some m →
        path.y.getLast? = some yl →
        (OptRightScan.get_next_x p path = some none ↔
          m + p.conv_thresh < yl ∨ p.max_iter < (path.x.length : ℤ))) ∧
      (path.x.length = 0 → 0 ≤ p.max_iter →
        OptRightScan.get_next_x p path = some (some p.init_x)) ∧
      (∀ xl, 1 ≤ path.x.length → path.x.getLast? = some xl →
        OptRightScan.get_next_x p path ≠ some none →
        OptRightScan.get_next_x p path = some (some (xl + p.x_grid_gap))) := by
  intro p path hwf
  refine ⟨?_, ?_, ?_⟩
  · intro m yl h2 hm hyl
    obtain ⟨xl, hxl⟩ := getLast_some_of_ne_nil (l := path.x)
      (List.length_pos.mp (by omega))
    rw [OptRightScan.get_next_x_len2 p path h2 hxl hm hyl]
    split_ifs with h1 h2'
    · simp [h1]
    · simp [h2']
    · simp [h1, h2']
  · intro h0 hm
    rw [OptRightScan.get_next_x_len0 p path h0, if_neg (by omega)]
  · intro xl h1 hxl hne
    rcases Nat.lt_or_ge path.x.length 2 with hlt | hge
    · have hl1 : path.x.length = 1 := by omega
      rw [OptRightScan.get_next_x_len1 p path hl1 hxl] at hne ⊢
      by_cases hcap : p.max_iter < 1
      · rw [if_pos hcap] at hne; exact absurd rfl hne
      · rw [if_neg hcap]
    · obtain ⟨yl, hyl⟩ := getLast_some_of_ne_nil (l := path.y)
        (List.length_pos.mp (by omega))
      obtain ⟨m, hm⟩ := npMin_some_of_ne_nil (l := path.y.dropLast)
        (List.length_pos.mp (by rw [List.length_dropLast]; omega))
      rw [OptRightScan.get_next_x_len2 p path hge hxl hm hyl] at hne ⊢
      by_cases hcap : p.max_iter < (path.x.length : ℤ)
      · rw [if_pos hcap] at hne; exact absurd rfl hne
      · rw [if_neg hcap] at hne ⊢
        by_cases hconv : m + p.conv_thresh < yl
        · rw [if_pos hconv] at hne; exact absurd rfl hne
        · rw [if_neg hconv]

/-- Witness for C3 (amended), empty-path clause with the default
`max_iter = 100`: the initial point `4` is proposed. -/
theorem OptRightScan_get_next_x_spec_witness :
    OptRightScan.get_next_x
        { init_x := 4, x_grid_gap := 1/10, conv_thresh := 1/5, max_iter := 100 }
        { x := [], y := [] } = some (some 4) :=
  (OptRightScan_get_next_x_spec _ { x := [], y := [] } rfl).2.1 rfl (by norm_num)

/-- Counterexample for C3 as stated: with the configured (valid-typed)
`max_iter = -1`, the empty path does not get the configured initial
point proposed — the hard cap already applies and `get_next_x` returns
the stop sentinel. -/
theorem OptRightScan_get_next_x_len0_cex :
    OptRightScan.get_next_x
        { init_x := 4, x_grid_gap := 1/10, conv_thresh := 1/5, max_iter := -1 }
        { x := [], y := [] } = some none ∧
    OptRightScan.get_next_x
        { init_x := 4, x_grid_gap := 1/10, conv_thresh := 1/5, max_iter := -1 }
        { x := [], y := [] } ≠ some (some 4) := by
  constructor
  · rw [OptRightScan.get_next_x_len0 _ { x := [], y := [] } rfl, if_pos (by norm_num)]
  · rw [OptRightScan.get_next_x_len0 _ { x := [], y := [] } rfl, if_pos (by norm_num)]
    simp

/-- C5: for every run of `LinearScanRandGap.run_algorithm_on_f` whose
drawn grid size `r` lies in the `np.random.randint` range
`[ceil(0.8*n), ceil(1.2*n))` for the original grid's size `n`, the
resampled grid has exactly `r` points and its minimum and maximum equal
the minimum and maximum of the original grid. -/
theorem LinearScanRandGap_resample_range :
    ∀ (p : LinearScanRandGapParams) (r : ℕ) (f : ℚ → ℚ) (fuel : ℕ),
      LinearScanRandGap.min_gap p.x_path_orig.length ≤ (r : ℤ) →
      (r : ℤ) < LinearScanRandGap.max_gap p.x_path_orig.length →
      ∃ new_x_path,
        LinearScanRandGap.resample p.x_path_orig r = some new_x_path ∧
        LinearScanRandGap.run_algorithm_on_f p r f fuel =
          some ({ x_path := new_x_path, x_path_orig := p.x_path_orig },
                LinearScan.run_algorithm_on_f { x_path := new_x_path } f fuel) ∧
        new_x_path.length = r ∧
        npMin new_x_path = npMin p.x_path_orig ∧
        npMax new_x_path = npMax p.x_path_orig := by
  intro p r f fuel hlo hhi
  have hnpos : 1 ≤ p.x_path_orig.length := by
    by_contra hc
    have hn0 : p.x_path_orig.length = 0 := by omega
    have hmax0 : LinearScanRandGap.max_gap p.x_path_orig.length = 0 := by
      rw [LinearScanRandGap.max_gap, hn0]
      simp
    omega
  obtain ⟨a, t, horig⟩ : ∃ a t, p.x_path_orig = a :: t := by
    cases hc : p.x_path_orig with
    | nil => rw [hc] at hnpos; simp at hnpos
    | cons a t => exact ⟨a, t, rfl⟩
  have hlohi : t.foldl min a ≤ t.foldl max a :=
    le_trans (foldl_min_le_self t a) (le_foldl_max_self t a)
  have hres : LinearScanRandGap.resample p.x_path_orig r =
      some (linspace (t.foldl min a) (t.foldl max a) r) := by
    rw [horig]; rfl
  refine ⟨linspace (t.foldl min a) (t.foldl max a) r, hres, ?_, linspace_length _ _ _, ?_, ?_⟩
  · rw [LinearScanRandGap.run_algorithm_on_f, hres]
  · rcases le_or_lt 2 r with hr2 | hr1
    · rw [npMin_linspace _ _ hlohi r hr2, horig]; rfl
    · have hr1' : r = 1 := by
        have hminpos : 0 < LinearScanRandGap.min_gap p.x_path_orig.length := by
          rw [LinearScanRandGap.min_gap, Int.ceil_pos]
          have hc : (0:ℚ) < (p.x_path_orig.length : ℚ) := by
            exact_mod_cast hnpos
          norm_num [LinearScanRandGap.rand_factor]
          positivity
        omega
      have hn1 : p.x_path_orig.length = 1 := by
        have h45 : (1 - LinearScanRandGap.rand_factor) * (p.x_path_orig.length : ℚ) ≤ 1 := by
          have h1 := hlo
          rw [hr1'] at h1
          rw [LinearScanRandGap.min_gap, Int.ceil_le] at h1
          exact_mod_cast h1
        have h54 : (p.x_path_orig.length : ℚ) ≤ 5/4 := by
          norm_num [LinearScanRandGap.rand_factor] at h45
          linarith
        by_contra hc
        have h2 : 2 ≤ p.x_path_orig.length := by omega
        have h2' : (2:ℚ) ≤ (p.x_path_orig.length : ℚ) := by exact_mod_cast h2
        linarith
      have ht : t = [] := by
        rw [horig] at hn1
        simpa using hn1
      rw [ht, hr1', horig, ht]
      rfl
  · rcases le_or_lt 2 r with hr2 | hr1
    · rw [npMax_linspace _ _ hlohi r hr2, horig]; rfl
    · have hr1' : r = 1 := by
        have hminpos : 0 < LinearScanRandGap.min_gap p.x_path_orig.length := by
          rw [LinearScanRandGap.min_gap, Int.ceil_pos]
          have hc : (0:ℚ) < (p.x_path_orig.length : ℚ) := by
            exact_mod_cast hnpos
          norm_num [LinearScanRandGap.rand_factor]
          positivity
        omega
      have hn1 : p.x_path_orig.length = 1 := by
        have h45 : (1 - LinearScanRandGap.rand_factor) * (p.x_path_orig.length : ℚ) ≤ 1 := by
          have h1 := hlo
          rw [hr1'] at h1
          rw [LinearScanRandGap.min_gap, Int.ceil_le] at h1
          exact_mod_cast h1
        have h54 : (p.x_path_orig.length : ℚ) ≤ 5/4 := by
          norm_num [LinearScanRandGap.rand_factor] at h45
          linarith
        by_contra hc
        have h2 : 2 ≤ p.x_path_orig.length := by omega
        have h2' : (2:ℚ) ≤ (p.x_path_orig.length : ℚ) := by exact_mod_cast h2
        linarith
      have ht : t = [] := by
        rw [horig] at hn1
        simpa using hn1
      rw [ht, hr1', horig, ht]
      rfl

/-- Witness for C5: original grid `[1, 2]` (so `n = 2`,
`randint` range `[2, 3)`), drawn size `r = 2`; the resampled grid is
again `[1, 2]`. -/
theorem LinearScanRandGap_resample_range_witness :
    ∃ new_x_path,
      LinearScanRandGap.resample
          (({ x_path := [1, 2], x_path_orig := [1, 2] } :
            LinearScanRandGapParams)).x_path_orig 2 = some new_x_path ∧
      LinearScanRandGap.run_algorithm_on_f
          { x_path := [1, 2], x_path_orig := [1, 2] } 2 id 2 =
        some ({ x_path := new_x_path, x_path_orig := [1, 2] },
              LinearScan.run_algorithm_on_f { x_path := new_x_path } id 2) ∧
      new_x_path.length = 2 ∧
      npMin new_x_path = npMin (([1, 2] : List ℚ)) ∧
      npMax new_x_path = npMax (([1, 2] : List ℚ)) :=
  LinearScanRandGap_resample_range { x_path := [1, 2], x_path_orig := [1, 2] } 2 id 2
    (by norm_num [LinearScanRandGap.min_gap, LinearScanRandGap.rand_factor, Int.ceil_le])
    (by norm_num [LinearScanRandGap.max_gap, LinearScanRandGap.rand_factor, Int.lt_ceil])

/-- C6 (amended): configuration never fails — missing fields take the
documented defaults — but it performs no semantic validation either: a
provided empty grid or non-positive `max_iter` is accepted and stored
as-is (no `InvalidConfig` error exists), and an empty `LinearScan` grid
silently yields a zero-step run with empty output at run time. -/
theorem set_params_no_validation :
    ∀ (c₁ : LinearScanConfig) (c₂ : OptRightScanConfig) (f : ℚ → ℚ) (fuel : ℕ),
      LinearScan.set_params c₁ =
        { x_path := c₁.x_path.getD LinearScan.default_x_path } ∧
      OptRightScan.set_params c₂ =
        { init_x := c₂.init_x.getD 4, x_grid_gap := c₂.x_grid_gap.getD (1/10),
          conv_thresh := c₂.conv_thresh.getD (1/5),
          max_iter := c₂.max_iter.getD 100 } ∧
      (c₁.x_path = some [] →
        LinearScan.run_algorithm_on_f (LinearScan.set_params c₁) f fuel =
          some ({ x := [], y := [] }, [])) := by
  intro c₁ c₂ f fuel
  refine ⟨rfl, rfl, ?_⟩
  intro hc
  have hx : (LinearScan.set_params c₁).x_path = [] := by
    rw [LinearScan.set_params, hc]
    rfl
  have hn : LinearScan.get_next_x (LinearScan.set_params c₁)
      ({ x := [], y := [] } : ExePath ℚ ℚ) = some none := by
    simp [LinearScan.get_next_x, hx]
  cases fuel with
  | zero => rw [LinearScan.run_algorithm_on_f, runLoop, hn]; rfl
  | succ n => rw [LinearScan.run_algorithm_on_f, runLoop, hn]; rfl

/-- Witness for C6 (amended) at the concrete invalid configurations:
an explicitly empty grid and `max_iter = -5` are both stored untouched,
and the empty-grid run returns the empty path with empty output. -/
theorem set_params_no_validation_witness :
    LinearScan.set_params { x_path := some [] } = { x_path := [] } ∧
    OptRightScan.set_params
        { init_x := none, x_grid_gap := none, conv_thresh := none,
          max_iter := some (-5) } =
      { init_x := 4, x_grid_gap := 1/10, conv_thresh := 1/5, max_iter := -5 } ∧
    LinearScan.run_algorithm_on_f (LinearScan.set_params { x_path := some [] }) id 0 =
      some ({ x := [], y := [] }, []) := by
  have h := set_params_no_validation { x_path := some [] }
    { init_x := none, x_grid_gap := none, conv_thresh := none, max_iter := some (-5) }
    id 0
  exact ⟨h.1, h.2.1, h.2.2 rfl⟩

/-- Counterexample for C6 as stated: configuring `LinearScan` with an
empty grid, or `OptRightScan` with a negative `max_iter`, raises nothing
at configuration time — `set_params` is total, stores the invalid value
unchanged, and the empty-grid run silently produces a zero-step run with
empty output. -/
theorem set_params_accepts_invalid_cex :
    (LinearScan.set_params { x_path := some [] }).x_path = [] ∧
    (OptRightScan.set_params
        { init_x := none, x_grid_gap := none, conv_thresh := none,
          max_iter := some (-5) }).max_iter = -5 ∧
    LinearScan.run_algorithm_on_f (LinearScan.set_params { x_path := some [] }) id 0 =
      some ({ x := [], y := [] }, []) := by
  refine ⟨rfl, rfl, ?_⟩
  rfl

/-- C10: `LinearScanRandGap` never overwrites the original grid: a single
run updates only the working grid (derived from the snapshot
`x_path_orig` via `resample`), and after any number of runs from a
constructed instance the snapshot still equals the grid given at
construction. -/
theorem LinearScanRandGap_orig_preserved :
    (∀ (p : LinearScanRandGapParams) (r : ℕ) (f : ℚ → ℚ) (fuel : ℕ)
        (p' : LinearScanRandGapParams) res,
      LinearScanRandGap.run_algorithm_on_f p r f fuel = some (p', res) →
      p'.x_path_orig = p.x_path_orig ∧
      ∃ new, LinearScanRandGap.resample p.x_path_orig r = some new ∧
        p'.x_path = new ∧
        res = LinearScan.run_algorithm_on_f { x_path := new } f fuel) ∧
    (∀ (p0 : LinearScanParams ℚ) (runs : List (ℕ × (ℚ → ℚ) × ℕ))
        (p' : LinearScanRandGapParams),
      LinearScanRandGap.runMany (LinearScanRandGap.init p0) runs = some p' →
      p'.x_path_orig = p0.x_path) := by
  constructor
  · intro p r f fuel p' res h
    rw [LinearScanRandGap.run_algorithm_on_f] at h
    cases hres : LinearScanRandGap.resample p.x_path_orig r with
    | none => rw [hres] at h; simp at h
    | some new =>
      rw [hres] at h
      simp only [Option.some.injEq, Prod.mk.injEq] at h
      exact ⟨by rw [← h.1], new, rfl, by rw [← h.1], h.2.symm⟩
  · intro p0 runs p' h
    rw [runMany_orig runs _ _ h]
    rfl

/-- Witness for C10: one run on the instance constructed from the grid
`[1, 2]` leaves the snapshot equal to the construction grid. -/
theorem LinearScanRandGap_orig_preserved_witness :
    (({ x_path := [1, 2], x_path_orig := [1, 2] } :
      LinearScanRandGapParams)).x_path_orig =
      (({ x_path := [1, 2] } : LinearScanParams ℚ)).x_path :=
  LinearScanRandGap_orig_preserved.2 { x_path := [1, 2] } [(2, id, 2)]
    { x_path := [1, 2], x_path_orig := [1, 2] }
    (by norm_num [LinearScanRandGap.runMany, LinearScanRandGap.run_algorithm_on_f,
      LinearScanRandGap.init, LinearScanRandGap.resample, npMin, npMax, linspace,
      List.range_succ, LinearScan.run_algorithm_on_f,
      LinearScan.get_output_from_exe_path, runLoop, LinearScan.get_next_x])
